import Mathlib

set_option maxHeartbeats 1000000
set_option maxRecDepth 8000

namespace JsTerminal

/-! Value model for the worker's runtime values (src/assets/js/worker.js).
Primitive values are immediate; composite values (arrays, Maps, Sets, plain
objects) live on a heap addressed by natural numbers, so that shared and
cyclic references can be represented. -/

/-- A runtime value: the primitive categories the formatter dispatches on,
plus a reference into the heap for composite values. -/
inductive Value where
  | vNull
  | vUndefined
  | vStr (s : String)
  | vNum (n : Int)
  | vBool (b : Bool)
  | ref (a : Nat)
deriving DecidableEq

/-- An own enumerable property of a plain object: either a plain data value,
or an accessor whose getter throws the given value when read. -/
inductive PropVal where
  | norm (v : Value)
  | getterThrow (e : Value)
deriving DecidableEq

/-- A composite heap node: array, Map, Set, or generic object, matching the
four composite categories the formatter enumerates. -/
inductive Node where
  | arrN (elems : List Value)
  | mapN (entries : List (Value × Value))
  | setN (elems : List Value)
  | objN (props : List (String × PropVal))
deriving DecidableEq

abbrev Heap := List (Nat × Node)

abbrev Seen := List Nat

/-- Association-list lookup (first match wins). -/
def assocFind {α β : Type} [DecidableEq α] : List (α × β) → α → Option β
  | [], _ => none
  | (k, v) :: rest, a => if k = a then some v else assocFind rest a

def heapFind (hp : Heap) (a : Nat) : Option Node := assocFind hp a

instance {ε α : Type} [DecidableEq ε] [DecidableEq α] : DecidableEq (Except ε α) := fun x y =>
  match x, y with
  | .ok a, .ok b =>
      if h : a = b then isTrue (by rw [h]) else isFalse (by intro hc; cases hc; exact h rfl)
  | .ok _, .error _ => isFalse (by intro hc; cases hc)
  | .error _, .ok _ => isFalse (by intro hc; cases hc)
  | .error a, .error b =>
      if h : a = b then isTrue (by rw [h]) else isFalse (by intro hc; cases hc; exact h rfl)

/-- One hexadecimal digit. -/
def hexDigit (n : Nat) : Char :=
  if n < 10 then Char.ofNat (48 + n) else Char.ofNat (87 + n)

/-- JSON escaping of one character, as JSON.stringify performs it. -/
def jsonEscapeChar (c : Char) : String :=
  if c = '"' then "\\\""
  else if c = '\\' then "\\\\"
  else if c = '\n' then "\\n"
  else if c = '\t' then "\\t"
  else if c = '\r' then "\\r"
  else if c = Char.ofNat 8 then "\\b"
  else if c = Char.ofNat 12 then "\\f"
  else if c.toNat < 32 then
    "\\u00" ++ String.mk [hexDigit (c.toNat / 16), hexDigit (c.toNat % 16)]
  else String.mk [c]

/-- JSON.stringify on a string: double quotes around the escaped content. -/
def jsonStringify (s : String) : String :=
  "\"" ++ String.join (s.data.map jsonEscapeChar) ++ "\""

def joinParts (ps : List String) : String := String.intercalate ", " ps

/-- Sequential formatting of a list of values, threading the shared visited
set left to right, with any formatting fault propagated.  This is the
behaviour of `val.slice(0,50).map(v => formatValue(v, depth+1, seen))` and of
the Set loop body without its counter. -/
def fmtListSeq (fmt : Value → Seen → Except Value (String × Seen)) :
    List Value → Seen → Except Value (List String × Seen)
  | [], seen => .ok ([], seen)
  | v :: rest, seen =>
      match fmt v seen with
      | .error e => .error e
      | .ok (s, seen1) =>
          match fmtListSeq fmt rest seen1 with
          | .error e => .error e
          | .ok (ps, seen2) => .ok (s :: ps, seen2)

/-- Sequential formatting of Map entries as "key => value" parts, without the
counter/break logic (used to state what the counter loop amounts to). -/
def fmtPairsSeq (fmt : Value → Seen → Except Value (String × Seen)) :
    List (Value × Value) → Seen → Except Value (List String × Seen)
  | [], seen => .ok ([], seen)
  | (k, v) :: rest, seen =>
      match fmt k seen with
      | .error e => .error e
      | .ok (ks, seen1) =>
          match fmt v seen1 with
          | .error e => .error e
          | .ok (vs, seen2) =>
              match fmtPairsSeq fmt rest seen2 with
              | .error e => .error e
              | .ok (ps, seen3) => .ok ((ks ++ " => " ++ vs) :: ps, seen3)

/-- The Map branch loop of formatValue:
`for (const [k,v] of val) { parts.push(fmt(k) + " => " + fmt(v)); if (++i > 50) { parts.push("…"); break; } }`
with the counter `i` starting at 0. -/
def mapEntriesLoop (fmt : Value → Seen → Except Value (String × Seen)) :
    List (Value × Value) → Nat → Seen → Except Value (List String × Seen)
  | [], _, seen => .ok ([], seen)
  | (k, v) :: rest, i, seen =>
      match fmt k seen with
      | .error e => .error e
      | .ok (ks, seen1) =>
          match fmt v seen1 with
          | .error e => .error e
          | .ok (vs, seen2) =>
              let part := ks ++ " => " ++ vs
              if i + 1 > 50 then .ok ([part, "…"], seen2)
              else
                match mapEntriesLoop fmt rest (i + 1) seen2 with
                | .error e => .error e
                | .ok (ps, seen3) => .ok (part :: ps, seen3)

/-- The Set branch loop of formatValue:
`for (const v of val) { parts.push(fmt(v)); if (++i > 50) { parts.push("…"); break; } }`. -/
def setElemsLoop (fmt : Value → Seen → Except Value (String × Seen)) :
    List Value → Nat → Seen → Except Value (List String × Seen)
  | [], _, seen => .ok ([], seen)
  | v :: rest, i, seen =>
      match fmt v seen with
      | .error e => .error e
      | .ok (s, seen1) =>
          if i + 1 > 50 then .ok ([s, "…"], seen1)
          else
            match setElemsLoop fmt rest (i + 1) seen1 with
            | .error e => .error e
            | .ok (ps, seen2) => .ok (s :: ps, seen2)

/-- The generic-object branch body:
`keys.slice(0,50).map(k => JSON.stringify(k) + ": " + fmt(val[k]))`.
Reading a property whose getter throws propagates that thrown value. -/
def objPropsLoop (fmt : Value → Seen → Except Value (String × Seen)) :
    List (String × PropVal) → Seen → Except Value (List String × Seen)
  | [], seen => .ok ([], seen)
  | (_, .getterThrow e) :: _, _ => .error e
  | (k, .norm v) :: rest, seen =>
      match fmt v seen with
      | .error e => .error e
      | .ok (s, seen1) =>
          let part := jsonStringify k ++ ": " ++ s
          match objPropsLoop fmt rest seen1 with
          | .error e => .error e
          | .ok (ps, seen2) => .ok (part :: ps, seen2)

/-- The formatter of worker.js (`formatValue`), with the recursion driven by
the remaining budget `3 - depth`: the source tests `depth > 2` before
enumerating a composite's members and recurses at `depth + 1`, which is
exactly budget `0` respectively budget decremented by one.  The visited set
`seen` is a single identity set shared by the whole top-level call (the
WeakSet of the source), threaded through all member recursion; it holds the
heap addresses of the Maps, Sets and plain objects entered so far.  Array
values are formatted without any visited-set check, exactly as in the source.
A fault raised while reading an object member (a throwing getter) propagates
out as `.error`, matching the absence of any try/catch around member access
in the source (the source's final `try { return String(val) } catch
{ return "[Unserializable]" }` guards only the fall-through for values whose
typeof is none of the dispatched categories, which is unreachable for every
value of this model). -/
def formatValueB (hp : Heap) : Nat → Value → Seen → Except Value (String × Seen)
  | _, .vNull, seen => .ok ("null", seen)
  | _, .vUndefined, seen => .ok ("undefined", seen)
  | _, .vStr s, seen => .ok (jsonStringify s, seen)
  | _, .vNum n, seen => .ok (toString n, seen)
  | _, .vBool b, seen => .ok (if b then "true" else "false", seen)
  | budget, .ref a, seen =>
      match heapFind hp a with
      | none => .ok ("«dangling»", seen)
      | some (.arrN elems) =>
          match budget with
          | 0 => .ok ("Array(" ++ toString elems.length ++ ") […]", seen)
          | b + 1 =>
              match fmtListSeq (formatValueB hp b) (elems.take 50) seen with
              | .error e => .error e
              | .ok (ps, seen1) =>
                  .ok ("Array(" ++ toString elems.length ++ ") [" ++ joinParts ps ++
                       (if 50 < elems.length then ", …" else "") ++ "]", seen1)
      | some (.mapN entries) =>
          if a ∈ seen then .ok ("[Circular Map]", seen)
          else
            match budget with
            | 0 => .ok ("Map(…)", a :: seen)
            | b + 1 =>
                match mapEntriesLoop (formatValueB hp b) entries 0 (a :: seen) with
                | .error e => .error e
                | .ok (ps, seen1) =>
                    .ok ("Map(" ++ toString entries.length ++ ") \x7b " ++ joinParts ps ++ " \x7d",
                         seen1)
      | some (.setN elems) =>
          if a ∈ seen then .ok ("[Circular Set]", seen)
          else
            match budget with
            | 0 => .ok ("Set(…)", a :: seen)
            | b + 1 =>
                match setElemsLoop (formatValueB hp b) elems 0 (a :: seen) with
                | .error e => .error e
                | .ok (ps, seen1) =>
                    .ok ("Set(" ++ toString elems.length ++ ") \x7b " ++ joinParts ps ++ " \x7d",
                         seen1)
      | some (.objN props) =>
          if a ∈ seen then .ok ("[Circular]", seen)
          else
            match budget with
            | 0 => .ok ("\x7b…\x7d", a :: seen)
            | b + 1 =>
                match objPropsLoop (formatValueB hp b) (props.take 50) (a :: seen) with
                | .error e => .error e
                | .ok (ps, seen1) =>
                    .ok ("\x7b " ++
                         joinParts (ps ++ (if 50 < props.length then ["…"] else [])) ++
                         " \x7d", seen1)

/-- The source's `formatValue(val, depth, seen)`: the recursion budget left
at depth `depth` is `3 - depth` (`depth > 2` is exactly budget 0). -/
def formatValue (hp : Heap) (v : Value) (depth : Nat) (seen : Seen) :
    Except Value (String × Seen) :=
  formatValueB hp (3 - depth) v seen

/-! The worker's message emissions and the evaluation policy of `evalCode`
(src/assets/js/worker.js).  The outcome of each of the two evaluation
attempts (`await eval(code)` and `await (new AsyncFunction(code))()`) is a
value or a thrown fault; the surrounding control flow of `evalCode` is
modelled exactly: the whole body, including the `send("result", …)` whose
payload formats the candidate value, sits in the outer try whose catch sends
an error event correlated to the submission id, formatting the caught value;
a fault raised by that final formatting escapes the handler (modelled as
`.error`), so no terminal event is emitted at all in that case. -/

/-- Outcome of one evaluation attempt: a produced value or a thrown fault. -/
inductive Outcome where
  | ok (v : Value)
  | fault (e : Value)
deriving DecidableEq

/-- A message the worker posts to the host (the `send(type, payload)` calls).
Terminal messages are `resultM` and `errorM`; an error may be untargeted
(no id), as for unhandled rejections and load failures. -/
inductive WorkerMsg where
  | ready
  | consoleM (method : String) (formatted : String)
  | tableM (headers : List String) (rows : List (List String))
  | resultM (id : String) (formatted : String)
  | errorM (id : Option String) (formatted : String)
  | clearM
  | statusM (text : String)
deriving DecidableEq

/-- The submission id carried by a terminal message, if any. -/
def msgSubmissionId : WorkerMsg → Option String
  | .resultM id _ => some id
  | .errorM oid _ => oid
  | _ => none

/-- Step 1/step 2 selection of `evalCode`: the expression attempt's fault is
discarded silently and the block attempt's outcome is used instead. -/
def evalAttempts (exprO blockO : Outcome) : Outcome :=
  match exprO with
  | .ok v => .ok v
  | .fault _ => blockO

/-- The worker's `evalCode(id, code)`, given the outcomes of the two
attempts: the list of terminal messages it sends, or `.error e` when the
exception `e` escapes the handler (which happens exactly when formatting the
fault to report also faults). -/
def evalCode (hp : Heap) (id : String) (exprO blockO : Outcome) :
    Except Value (List WorkerMsg) :=
  match evalAttempts exprO blockO with
  | .ok v =>
      match formatValue hp v 0 [] with
      | .ok (s, _) => .ok [.resultM id s]
      | .error e1 =>
          match formatValue hp e1 0 [] with
          | .ok (s1, _) => .ok [.errorM (some id) s1]
          | .error e2 => .error e2
  | .fault e =>
      match formatValue hp e 0 [] with
      | .ok (s, _) => .ok [.errorM (some id) s]
      | .error e2 => .error e2

/-! Host orchestrator (the unnamed UI/orchestration source file):
`createWorker`'s `onmessage` switch, restricted to its observable effect on
the pending map and the rendered line.  Timestamps are modelled as integers;
`performance.now() - meta.startedAt` clamped at zero is `max 0 (now - st)`
(the source additionally formats it with toFixed(1), a presentation detail
outside the model). -/

/-- A line appended to the output surface, with its optional elapsed-time
annotation (only results looked up in the pending map carry one). -/
structure RenderedLine where
  kind : String
  formatted : String
  elapsed : Option Int
deriving DecidableEq

/-- The observable effect of handling one worker message. -/
structure HostStep where
  line : Option RenderedLine
  pending : List (String × Int)
  status : Option String
deriving DecidableEq

/-- Deletion `pending.delete(id)` (ids are unique, so filtering the key removes the
one entry). -/
def eraseId (pending : List (String × Int)) (id : String) : List (String × Int) :=
  pending.filter (fun p => p.1 ≠ id)

/-- The `onmessage` switch of `createWorker`: `result` messages are looked up
in the pending map — on a hit the elapsed time `max 0 (now - startedAt)` is
computed and the entry deleted, on a miss the result is rendered without
timing; `error` messages are always rendered without timing and never touch
the pending map; the remaining kinds do not involve the pending map. -/
def onWorkerMessage (pending : List (String × Int)) (now : Int) :
    WorkerMsg → HostStep
  | .ready => ⟨none, pending, some "sandbox ready"⟩
  | .consoleM method formatted => ⟨some ⟨"console " ++ method, formatted, none⟩, pending, none⟩
  | .tableM _ _ => ⟨some ⟨"table", "", none⟩, pending, none⟩
  | .resultM id formatted =>
      match assocFind pending id with
      | some st =>
          ⟨some ⟨"result", formatted, some (max 0 (now - st))⟩, eraseId pending id,
           some ("done in " ++ toString (max 0 (now - st)) ++ " ms")⟩
      | none => ⟨some ⟨"result", formatted, none⟩, pending, none⟩
  | .errorM _ formatted => ⟨some ⟨"error", formatted, none⟩, pending, some "error"⟩
  | .clearM => ⟨none, pending, none⟩
  | .statusM text => ⟨none, pending, some text⟩

/-! Module loader: `resolveSpec` of worker.js. -/

/-- Whitespace as removed by `String.prototype.trim`: the WhiteSpace
production (TAB, VT, FF, SP, NBSP, ZWNBSP and the Unicode Space_Separator
code points) together with the LineTerminator production (LF, CR, LS, PS). -/
def isJsWs (c : Char) : Bool :=
  c = ' ' || c = '\t' || c = '\n' || c = '\r' ||
  c = Char.ofNat 0x0b || c = Char.ofNat 0x0c ||
  c = Char.ofNat 0xa0 || c = Char.ofNat 0x1680 ||
  (0x2000 ≤ c.toNat && c.toNat ≤ 0x200a) ||
  c = Char.ofNat 0x2028 || c = Char.ofNat 0x2029 ||
  c = Char.ofNat 0x202f || c = Char.ofNat 0x205f ||
  c = Char.ofNat 0x3000 || c = Char.ofNat 0xfeff

/-- Trimming `String(spec).trim()`. -/
def jsTrim (s : String) : String :=
  String.mk (((s.data.dropWhile isJsWs).reverse.dropWhile isJsWs).reverse)

/-- Whether `cs` begins with the pattern `pat`. -/
def leadsWith : List Char → List Char → Bool
  | [], _ => true
  | _ :: _, [] => false
  | p :: ps, c :: cs => p == c && leadsWith ps cs

/-- Whether `s` starts with `pat`. -/
def strLeads (s pat : String) : Bool := leadsWith pat.data s.data

/-- ASCII lowercasing (all the regex's pattern letters are ASCII). -/
def lowerAscii (c : Char) : Char :=
  if 'A' ≤ c ∧ c ≤ 'Z' then Char.ofNat (c.toNat + 32) else c

def strLower (s : String) : String := String.mk (s.data.map lowerAscii)

/-- The test `/^https?:\/\//i`. -/
def isHttpAbs (s : String) : Bool :=
  strLeads (strLower s) "http://" || strLeads (strLower s) "https://"

def cdnBase : String := "https://cdn.jsdelivr.net/npm/"

/-- The fixed alias table of `resolveSpec` (the object literal `map`),
modelled as own-property lookup. -/
def aliasTable : List (String × String) :=
  [("lodash", "lodash@latest/lodash.min.js"),
   ("dayjs", "dayjs@latest/dayjs.min.js"),
   ("rxjs", "rxjs@7/dist/bundles/rxjs.umd.min.js"),
   ("ramda", "ramda@latest/dist/ramda.min.js"),
   ("underscore", "underscore@latest/underscore-min.js"),
   ("decimal.js", "decimal.js@latest/decimal.min.js"),
   ("papaparse", "papaparse@latest/papaparse.min.js")]

/-- Member names a plain object literal inherits from `Object.prototype`.
The alias lookup `map[name]` is an ordinary property get and therefore
consults the prototype chain: for these names it yields the inherited
member — a built-in function object, or for `__proto__` the accessor
returning the literal's prototype — all of which are truthy, so the
`|| name@latest` fallback is not taken. -/
def objectProtoMemberNames : List String :=
  ["constructor", "hasOwnProperty", "isPrototypeOf", "propertyIsEnumerable",
   "toLocaleString", "toString", "valueOf", "__proto__",
   "__defineGetter__", "__defineSetter__", "__lookupGetter__", "__lookupSetter__"]

/-- Modelled from ECMAScript: the text the template literal produces for an
inherited `Object.prototype` member used as the path.  For `__proto__` the
inherited accessor returns `Object.prototype` itself, whose ToString is
exactly "[object Object]".  The other members are built-in function objects
whose source text is implementation-defined (ECMAScript constrains it to the
NativeFunction grammar, which begins with the word "function", so it is in
particular never of the `name@latest` shape); the model renders them as an
explicitly opaque token whose exact text no theorem depends on. -/
def inheritedMemberText (name : String) : String :=
  if name = "__proto__" then "[object Object]"
  else "«NativeFunction " ++ name ++ "»"

/-- The loader's `resolveSpec(spec)`: trim, pass through absolute http(s)
locators and root-relative/relative paths unchanged, otherwise look the bare
name up with `map[name] || name + "@latest"` under the CDN base.  The
property get tries the table's own properties first (none of whose paths is
falsy), then the members inherited from `Object.prototype` (all truthy, so
they too short-circuit the `||`), and only a name that is neither falls
through to the `name@latest` fallback. -/
def resolveSpec (spec : String) : String :=
  let s := jsTrim spec
  if isHttpAbs s || strLeads s "/" || strLeads s "./" || strLeads s "../" then s
  else
    let path :=
      match assocFind aliasTable s with
      | some p => p
      | none =>
          if objectProtoMemberNames.contains s then inheritedMemberText s
          else s ++ "@latest"
    cdnBase ++ path

/-! `console.table(data, columns)` of worker.js. -/

/-- Truthiness of a value (`row && …`, `data && …`). -/
def jsTruthy : Value → Bool
  | .vNull => false
  | .vUndefined => false
  | .vBool b => b
  | .vNum n => if n = 0 then false else true
  | .vStr s => if s = "" then false else true
  | .ref _ => true

/-- Parsing a canonical decimal numeral (used for array/string index keys). -/
def natDigitsAux : List Char → Nat → Option Nat
  | [], acc => some acc
  | c :: cs, acc =>
      if c.isDigit then natDigitsAux cs (acc * 10 + (c.toNat - 48)) else none

def strToNatQ (s : String) : Option Nat :=
  match s.data with
  | [] => none
  | _ => natDigitsAux s.data 0

/-- A normalized table row: either a raw element of the array input, or the
synthetic object built for an entry of a keyed input (its property getters
already evaluated by `Object.entries`/spread). -/
inductive TRow where
  | rv (v : Value)
  | robj (props : List (String × Value))
deriving DecidableEq

/-- Keys as in `Object.keys(row || ...)`: own enumerable keys; a falsy row contributes
none, a string contributes its index keys, an array its index keys, a Map or
Set none (entries are not own properties). -/
def rowKeys (hp : Heap) : TRow → List String
  | .robj props => props.map (fun p => p.1)
  | .rv v =>
      match v with
      | .vStr s => (List.range s.length).map (fun i => toString i)
      | .ref a =>
          match heapFind hp a with
          | some (.arrN elems) => (List.range elems.length).map (fun i => toString i)
          | some (.objN props) => props.map (fun p => p.1)
          | _ => []
      | _ => []

/-- Reading `row && row[h]`: a falsy row short-circuits to itself; otherwise the
property named `h` is read (possibly through a throwing getter), a missing
property reading as undefined; arrays answer canonical index keys and
`length`, strings their index keys. -/
def cellOf (hp : Heap) (r : TRow) (h : String) : Except Value Value :=
  match r with
  | .robj props => .ok ((assocFind props h).getD .vUndefined)
  | .rv v =>
      if jsTruthy v = false then .ok v
      else
        match v with
        | .vStr s =>
            match strToNatQ h with
            | some i =>
                if toString i = h ∧ i < s.length then
                  .ok (.vStr (String.mk [s.data.getD i ' ']))
                else .ok .vUndefined
            | none => .ok .vUndefined
        | .ref a =>
            match heapFind hp a with
            | some (.arrN elems) =>
                if h = "length" then .ok (.vNum elems.length)
                else
                  match strToNatQ h with
                  | some i =>
                      if toString i = h then .ok ((elems.getD i .vUndefined))
                      else .ok .vUndefined
                  | none => .ok .vUndefined
            | some (.objN props) =>
                match assocFind props h with
                | some (.norm v) => .ok v
                | some (.getterThrow e) => .error e
                | none => .ok .vUndefined
            | _ => .ok .vUndefined
        | _ => .ok .vUndefined

/-- Reading all own enumerable properties of an object in order, evaluating
getters (as `Object.entries` and spread do); the first throwing getter's
value propagates. -/
def objEntries : List (String × PropVal) → Except Value (List (String × Value))
  | [] => .ok []
  | (_, .getterThrow e) :: _ => .error e
  | (k, .norm v) :: rest =>
      match objEntries rest with
      | .error e => .error e
      | .ok ps => .ok ((k, v) :: ps)

/-- Spreading a value's own enumerable properties (`{...v}`), evaluating
getters; primitives and Maps/Sets contribute nothing, arrays their indexed
elements. -/
def spreadProps (hp : Heap) (v : Value) : Except Value (List (String × Value)) :=
  match v with
  | .ref a =>
      match heapFind hp a with
      | some (.objN props) => objEntries props
      | some (.arrN elems) =>
          .ok ((List.range elems.length).map (fun i => (toString i, elems.getD i .vUndefined)))
      | _ => .ok []
  | _ => .ok []

/-- Adding one property to an object under construction: a repeated key
overwrites the value in place, a fresh key is appended (JS object-literal
semantics). -/
def insertProp : List (String × Value) → String × Value → List (String × Value)
  | [], p => [p]
  | (k0, v0) :: rest, (k, v) =>
      if k0 = k then (k0, v) :: rest else (k0, v0) :: insertProp rest (k, v)

/-- The synthetic row `{ "(index)": k, ...v }` for one entry of a keyed
input. -/
def mkIndexRow (hp : Heap) (k : String) (v : Value) : Except Value TRow :=
  match spreadProps hp v with
  | .error e => .error e
  | .ok ps => .ok (.robj (ps.foldl insertProp [("(index)", .vStr k)]))

/-- Building the synthetic rows for the entries of a keyed input. -/
def mkRowsLoop (hp : Heap) : List (String × Value) → Except Value (List TRow)
  | [] => .ok []
  | (k, v) :: rest =>
      match mkIndexRow hp k v with
      | .error e => .error e
      | .ok r =>
          match mkRowsLoop hp rest with
          | .error e => .error e
          | .ok rs => .ok (r :: rs)

/-- Row normalisation of `console.table`: an array is taken as its rows, any
other truthy object contributes one synthetic row per own entry
(`Object.entries` of a Map or Set is empty), and any other datum becomes the
single row `{ value: data }`. -/
def rowsOf (hp : Heap) (data : Value) : Except Value (List TRow) :=
  match data with
  | .ref a =>
      match heapFind hp a with
      | some (.arrN elems) => .ok (elems.map TRow.rv)
      | some (.objN props) =>
          match objEntries props with
          | .error e => .error e
          | .ok entries => mkRowsLoop hp entries
      | some _ => .ok []
      | none => .ok []
  | d => .ok [.robj [("value", d)]]

/-- The key union `rows.reduce((set, row) => { Object.keys(row||{}).forEach(k
=> set.add(k)); return set }, new Set())` in first-seen order. -/
def unionKeys (hp : Heap) (rows : List TRow) : List String :=
  rows.foldl
    (fun acc r =>
      (rowKeys hp r).foldl (fun a k => if a.contains k then a else a ++ [k]) acc)
    []

structure TableEvent where
  headers : List String
  rows : List (List String)
deriving DecidableEq

/-- One rendered table row: `headers.map(h => formatValue(row && row[h]))`,
each cell through the formatter at depth 0 with a fresh visited set. -/
def cellsLoop (hp : Heap) (r : TRow) : List String → Except Value (List String)
  | [] => .ok []
  | h :: rest =>
      match cellOf hp r h with
      | .error e => .error e
      | .ok c =>
          match formatValue hp c 0 [] with
          | .error e => .error e
          | .ok (s, _) =>
              match cellsLoop hp r rest with
              | .error e => .error e
              | .ok ss => .ok (s :: ss)

/-- All rendered rows `rows.map(row => headers.map(h => formatValue(row && row[h])))`. -/
def tableRowsLoop (hp : Heap) (headers : List String) : List TRow → Except Value (List (List String))
  | [] => .ok []
  | r :: rest =>
      match cellsLoop hp r headers with
      | .error e => .error e
      | .ok cs =>
          match tableRowsLoop hp headers rest with
          | .error e => .error e
          | .ok rss => .ok (cs :: rss)

/-- The encoder's `console.table(data, columns)`: headers are the explicit column list when
it is a non-empty array, otherwise the first-seen union of the rows' keys;
every cell is rendered through the formatter. -/
def consoleTable (hp : Heap) (data : Value) (columns : Option (List String)) :
    Except Value TableEvent :=
  match rowsOf hp data with
  | .error e => .error e
  | .ok rows =>
      let headers :=
        match columns with
        | some (c :: cs) => c :: cs
        | _ => unionKeys hp rows
      match tableRowsLoop hp headers rows with
      | .error e => .error e
      | .ok trs => .ok ⟨headers, trs⟩

/-! A fragment of the ECMAScript semantics invoked by `evalCode`, needed to
settle what the two attempts do on the concrete submission
`"let x = 1; x + 1"`.  Direct `eval` evaluates its argument as a *Program*
(a statement sequence, in which `let` declarations are legal), not as a
standalone expression; the program's completion value is the value of the
last value-producing statement.  The AsyncFunction fallback evaluates the
same statement sequence as a function body, whose return value — absent a
`return` statement — is `undefined`, regardless of the body's completion
value. -/

inductive JsExpr where
  | lit (n : Int)
  | evar (x : String)
  | add (a b : JsExpr)
deriving DecidableEq

inductive JsStmt where
  | letDecl (x : String) (e : JsExpr)
  | exprStmt (e : JsExpr)
deriving DecidableEq

/-- Expression evaluation over an environment; an unbound variable is a
ReferenceError. -/
def evalJsExpr (env : List (String × Int)) : JsExpr → Option Int
  | .lit n => some n
  | .evar x => assocFind env x
  | .add a b =>
      match evalJsExpr env a, evalJsExpr env b with
      | some va, some vb => some (va + vb)
      | _, _ => none

/-- Running a statement sequence, tracking the completion value (the last
expression statement's value; `let` declarations have empty completion). -/
def runProg (env : List (String × Int)) (last : Option Int) : List JsStmt → Outcome
  | [] =>
      match last with
      | some n => .ok (.vNum n)
      | none => .ok .vUndefined
  | .letDecl x e :: rest =>
      match evalJsExpr env e with
      | some v => runProg ((x, v) :: env) last rest
      | none => .fault (.vStr "ReferenceError")
  | .exprStmt e :: rest =>
      match evalJsExpr env e with
      | some v => runProg env (some v) rest
      | none => .fault (.vStr "ReferenceError")

/-- Modelled from ECMAScript: the outcome of the first attempt
`await eval(code)` — direct eval runs the statement sequence and yields its
completion value. -/
def jsDirectEval (prog : List JsStmt) : Outcome := runProg [] none prog

/-- Modelled from ECMAScript: the outcome of the fallback attempt
`await (new AsyncFunction('"use strict";\n' + code))()` — the body's
completion value is discarded and, the fragment having no return statement,
the call returns undefined. -/
def jsAsyncBlockEval (prog : List JsStmt) : Outcome :=
  match runProg [] none prog with
  | .ok _ => .ok .vUndefined
  | .fault e => .fault e

/-- The submission text `"let x = 1; x + 1"` as a program. -/
def letxProgram : List JsStmt :=
  [.letDecl "x" (.lit 1), .exprStmt (.add (.evar "x") (.lit 1))]

/-! Auxiliary predicates and concrete inputs used by the verification. -/

/-- Holds iff the result is a normal (non-faulting) one. -/
def isOkE {ε α : Type} : Except ε α → Bool
  | .ok _ => true
  | .error _ => false

/-- Substring occurrence test (used to state that a rendering contains no
circular-reference marker). -/
def hasSubAux (pat : List Char) : List Char → Bool
  | [] => leadsWith pat []
  | c :: cs => leadsWith pat (c :: cs) || hasSubAux pat cs

def strHasSub (s pat : String) : Bool := hasSubAux pat.data s.data

/-- The circular-reference marker the formatter returns for a revisited
composite, if that composite kind carries a visited-set check at all
(arrays carry none). -/
def circularMarkerFor : Node → Option String
  | .arrN _ => none
  | .mapN _ => some "[Circular Map]"
  | .setN _ => some "[Circular Set]"
  | .objN _ => some "[Circular]"

/-- The heap has no throwing getters: every object property is a plain data
property. -/
def gettersFree (hp : Heap) : Bool :=
  hp.all (fun p =>
    match p.2 with
    | .objN props =>
        props.all (fun q =>
          match q.2 with
          | .norm _ => true
          | .getterThrow _ => false)
    | _ => true)

/-- A cyclic array: `a = [a]`. -/
def cycArrHeap : Heap := [(0, .arrN [.ref 0])]

def cexArrayStr : String := "Array(1) [Array(1) [Array(1) [Array(1) […]]]]"

/-- A Map reached twice: once directly at depth 1 (entering it into the
visited set) and once at depth 3 through two nested objects. -/
def cyc5 : Heap :=
  [(0, .arrN [.ref 3, .ref 1]),
   (1, .objN [("a", .norm (.ref 2))]),
   (2, .objN [("b", .norm (.ref 3))]),
   (3, .mapN [])]

def cexDepthStr : String :=
  "Array(2) [Map(0) \x7b  \x7d, \x7b \"a\": \x7b \"b\": [Circular Map] \x7d \x7d]"

/-- One shared (acyclic) object occurring twice in an array. -/
def sharedHeap : Heap := [(0, .arrN [.ref 1, .ref 1]), (1, .objN [])]

/-- An object whose only property has a getter that throws the string "x". -/
def poisonHeap : Heap := [(0, .objN [("a", .getterThrow (.vStr "x"))])]

/-- An object whose getter throws the object itself, so that formatting the
thrown value throws again. -/
def poisonSelf : Heap := [(0, .objN [("a", .getterThrow (.ref 0))])]

/-- The 52 entries of a large Map input. -/
def entries52 : List (Value × Value) :=
  (List.range 52).map (fun i => (Value.vNum i, Value.vBool true))

def map52 : Heap := [(0, .mapN entries52)]

/-- A Set with exactly 51 elements. -/
def set51 : Heap := [(0, .setN ((List.range 51).map (fun i => Value.vNum i)))]

def set51Str : String :=
  "Set(51) \x7b " ++ joinParts (((List.range 51).map (fun i => toString i)) ++ ["…"]) ++ " \x7d"

def set50Str : String :=
  "Set(51) \x7b " ++ joinParts (((List.range 50).map (fun i => toString i)) ++ ["…"]) ++ " \x7d"

/-- The rows `[{a:1,b:2},{a:3,b:4}]` of the spec's table example. -/
def tblHeap : Heap :=
  [(0, .arrN [.ref 1, .ref 2]),
   (1, .objN [("a", .norm (.vNum 1)), ("b", .norm (.vNum 2))]),
   (2, .objN [("a", .norm (.vNum 3)), ("b", .norm (.vNum 4))])]

/-- The single row `[{a:1}]`, used with an explicit empty column list. -/
def tblHeap2 : Heap := [(0, .arrN [.ref 1]), (1, .objN [("a", .norm (.vNum 1))])]

/-- A getter-free heap with one empty object. -/
def wHeap6 : Heap := [(0, .objN [("a", .norm .vNull)])]

/-! Helper lemmas about the formatter. -/

/-- A Map, Set or plain object already in the visited set renders as its
circular-reference marker immediately, at every budget, without touching the
visited set and without recursing into its members. -/
theorem formatValueB_visited (hp : Heap) (b : Nat) (a : Nat) (seen : Seen) (nd : Node)
    (m : String) (hnd : heapFind hp a = some nd) (hm : circularMarkerFor nd = some m)
    (hmem : a ∈ seen) :
    formatValueB hp b (.ref a) seen = .ok (m, seen) := by
  cases nd with
  | arrN es => simp [circularMarkerFor] at hm
  | mapN es =>
      simp only [circularMarkerFor, Option.some.injEq] at hm
      subst hm
      simp [formatValueB, hnd, hmem]
  | setN es =>
      simp only [circularMarkerFor, Option.some.injEq] at hm
      subst hm
      simp [formatValueB, hnd, hmem]
  | objN ps =>
      simp only [circularMarkerFor, Option.some.injEq] at hm
      subst hm
      simp [formatValueB, hnd, hmem]

/-- A budget-exhausted array renders its collapsed form. -/
theorem formatValueB_arr_budget0 (hp : Heap) (a : Nat) (elems : List Value) (seen : Seen)
    (hnd : heapFind hp a = some (.arrN elems)) :
    formatValueB hp 0 (.ref a) seen =
      .ok ("Array(" ++ toString elems.length ++ ") […]", seen) := by
  simp [formatValueB, hnd]

/-- Deleting the id really removes it from the pending map. -/
theorem assocFind_eraseId (pending : List (String × Int)) (id : String) :
    assocFind (eraseId pending id) id = none := by
  induction pending with
  | nil => rfl
  | cons p rest ih =>
      by_cases h : p.1 = id
      · simpa [eraseId, List.filter, h] using ih
      · simpa [eraseId, List.filter, h, assocFind] using ih

/-- Sequential formatting only ever extends the visited set. -/
theorem fmtListSeq_suffix (fmt : Value → Seen → Except Value (String × Seen))
    (hf : ∀ v s out s2, fmt v s = .ok (out, s2) → s <:+ s2) :
    ∀ (vs : List Value) (s : Seen) (ps : List String) (s2 : Seen),
      fmtListSeq fmt vs s = .ok (ps, s2) → s <:+ s2 := by
  intro vs
  induction vs with
  | nil =>
      intro s ps s2 h
      simp only [fmtListSeq, Except.ok.injEq, Prod.mk.injEq] at h
      obtain ⟨-, h2⟩ := h
      subst h2
      exact List.suffix_refl _
  | cons v rest ih =>
      intro s ps s2 h
      simp only [fmtListSeq] at h
      cases h1 : fmt v s with
      | error e => simp only [h1] at h; cases h
      | ok p =>
          obtain ⟨o, s1⟩ := p
          simp only [h1] at h
          cases h2 : fmtListSeq fmt rest s1 with
          | error e => simp only [h2] at h; cases h
          | ok q =>
              obtain ⟨ps', s2'⟩ := q
              simp only [h2, Except.ok.injEq, Prod.mk.injEq] at h
              obtain ⟨-, h3⟩ := h
              subst h3
              exact (hf v s o s1 h1).trans (ih s1 ps' s2' h2)

/-- The Map-entry loop only ever extends the visited set. -/
theorem mapEntriesLoop_suffix (fmt : Value → Seen → Except Value (String × Seen))
    (hf : ∀ v s out s2, fmt v s = .ok (out, s2) → s <:+ s2) :
    ∀ (es : List (Value × Value)) (i : Nat) (s : Seen) (ps : List String) (s2 : Seen),
      mapEntriesLoop fmt es i s = .ok (ps, s2) → s <:+ s2 := by
  intro es
  induction es with
  | nil =>
      intro i s ps s2 h
      simp only [mapEntriesLoop, Except.ok.injEq, Prod.mk.injEq] at h
      obtain ⟨-, h2⟩ := h
      subst h2
      exact List.suffix_refl _
  | cons kv rest ih =>
      intro i s ps s2 h
      obtain ⟨k, v⟩ := kv
      simp only [mapEntriesLoop] at h
      cases h1 : fmt k s with
      | error e => simp only [h1] at h; cases h
      | ok p =>
          obtain ⟨ks, s1⟩ := p
          simp only [h1] at h
          cases h2 : fmt v s1 with
          | error e => simp only [h2] at h; cases h
          | ok q =>
              obtain ⟨vs, sv⟩ := q
              simp only [h2] at h
              by_cases hcut : i + 1 > 50
              · rw [if_pos hcut] at h
                simp only [Except.ok.injEq, Prod.mk.injEq] at h
                obtain ⟨-, h3⟩ := h
                subst h3
                exact (hf k s ks s1 h1).trans (hf v s1 vs sv h2)
              · rw [if_neg hcut] at h
                cases h3 : mapEntriesLoop fmt rest (i + 1) sv with
                | error e => simp only [h3] at h; cases h
                | ok r =>
                    obtain ⟨ps', s3⟩ := r
                    simp only [h3, Except.ok.injEq, Prod.mk.injEq] at h
                    obtain ⟨-, h4⟩ := h
                    subst h4
                    exact ((hf k s ks s1 h1).trans (hf v s1 vs sv h2)).trans
                      (ih (i + 1) sv ps' s3 h3)

/-- The Set-element loop only ever extends the visited set. -/
theorem setElemsLoop_suffix (fmt : Value → Seen → Except Value (String × Seen))
    (hf : ∀ v s out s2, fmt v s = .ok (out, s2) → s <:+ s2) :
    ∀ (es : List Value) (i : Nat) (s : Seen) (ps : List String) (s2 : Seen),
      setElemsLoop fmt es i s = .ok (ps, s2) → s <:+ s2 := by
  intro es
  induction es with
  | nil =>
      intro i s ps s2 h
      simp only [setElemsLoop, Except.ok.injEq, Prod.mk.injEq] at h
      obtain ⟨-, h2⟩ := h
      subst h2
      exact List.suffix_refl _
  | cons v rest ih =>
      intro i s ps s2 h
      simp only [setElemsLoop] at h
      cases h1 : fmt v s with
      | error e => simp only [h1] at h; cases h
      | ok p =>
          obtain ⟨o, s1⟩ := p
          simp only [h1] at h
          by_cases hcut : i + 1 > 50
          · rw [if_pos hcut] at h
            simp only [Except.ok.injEq, Prod.mk.injEq] at h
            obtain ⟨-, h3⟩ := h
            subst h3
            exact hf v s o s1 h1
          · rw [if_neg hcut] at h
            cases h2 : setElemsLoop fmt rest (i + 1) s1 with
            | error e => simp only [h2] at h; cases h
            | ok q =>
                obtain ⟨ps', s2'⟩ := q
                simp only [h2, Except.ok.injEq, Prod.mk.injEq] at h
                obtain ⟨-, h3⟩ := h
                subst h3
                exact (hf v s o s1 h1).trans (ih (i + 1) s1 ps' s2' h2)

/-- The object-property loop only ever extends the visited set. -/
theorem objPropsLoop_suffix (fmt : Value → Seen → Except Value (String × Seen))
    (hf : ∀ v s out s2, fmt v s = .ok (out, s2) → s <:+ s2) :
    ∀ (ps0 : List (String × PropVal)) (s : Seen) (ps : List String) (s2 : Seen),
      objPropsLoop fmt ps0 s = .ok (ps, s2) → s <:+ s2 := by
  intro ps0
  induction ps0 with
  | nil =>
      intro s ps s2 h
      simp only [objPropsLoop, Except.ok.injEq, Prod.mk.injEq] at h
      obtain ⟨-, h2⟩ := h
      subst h2
      exact List.suffix_refl _
  | cons kp rest ih =>
      intro s ps s2 h
      obtain ⟨k, pv⟩ := kp
      cases pv with
      | getterThrow e => simp only [objPropsLoop] at h; cases h
      | norm v =>
          simp only [objPropsLoop] at h
          cases h1 : fmt v s with
          | error e => simp only [h1] at h; cases h
          | ok p =>
              obtain ⟨o, s1⟩ := p
              simp only [h1] at h
              cases h2 : objPropsLoop fmt rest s1 with
              | error e => simp only [h2] at h; cases h
              | ok q =>
                  obtain ⟨ps', s2'⟩ := q
                  simp only [h2, Except.ok.injEq, Prod.mk.injEq] at h
                  obtain ⟨-, h3⟩ := h
                  subst h3
                  exact (hf v s o s1 h1).trans (ih s1 ps' s2' h2)

/-- A successful format call leaves the incoming visited set as a suffix of
the outgoing one: additions only, no removals ever. -/
theorem formatValueB_suffix (hp : Heap) :
    ∀ (b : Nat) (v : Value) (seen : Seen) (out : String) (seen2 : Seen),
      formatValueB hp b v seen = .ok (out, seen2) → seen <:+ seen2 := by
  intro b
  induction b with
  | zero =>
      intro v seen out seen2 h
      cases v with
      | vNull => cases h; exact List.suffix_refl _
      | vUndefined => cases h; exact List.suffix_refl _
      | vStr s => cases h; exact List.suffix_refl _
      | vNum n => cases h; exact List.suffix_refl _
      | vBool bb => simp only [formatValueB] at h; cases h; exact List.suffix_refl _
      | ref a =>
          simp only [formatValueB] at h
          cases hnd : heapFind hp a with
          | none => simp only [hnd] at h; cases h; exact List.suffix_refl _
          | some nd =>
              cases nd with
              | arrN es =>
                  simp only [hnd] at h
                  cases h
                  exact List.suffix_refl _
              | mapN es =>
                  simp only [hnd] at h
                  by_cases hmem : a ∈ seen
                  · rw [if_pos hmem] at h; cases h; exact List.suffix_refl _
                  · rw [if_neg hmem] at h; cases h; exact List.suffix_cons a seen
              | setN es =>
                  simp only [hnd] at h
                  by_cases hmem : a ∈ seen
                  · rw [if_pos hmem] at h; cases h; exact List.suffix_refl _
                  · rw [if_neg hmem] at h; cases h; exact List.suffix_cons a seen
              | objN ps =>
                  simp only [hnd] at h
                  by_cases hmem : a ∈ seen
                  · rw [if_pos hmem] at h; cases h; exact List.suffix_refl _
                  · rw [if_neg hmem] at h; cases h; exact List.suffix_cons a seen
  | succ b ih =>
      intro v seen out seen2 h
      cases v with
      | vNull => cases h; exact List.suffix_refl _
      | vUndefined => cases h; exact List.suffix_refl _
      | vStr s => cases h; exact List.suffix_refl _
      | vNum n => cases h; exact List.suffix_refl _
      | vBool bb => simp only [formatValueB] at h; cases h; exact List.suffix_refl _
      | ref a =>
          simp only [formatValueB] at h
          cases hnd : heapFind hp a with
          | none => simp only [hnd] at h; cases h; exact List.suffix_refl _
          | some nd =>
              cases nd with
              | arrN es =>
                  simp only [hnd] at h
                  cases hl : fmtListSeq (formatValueB hp b) (es.take 50) seen with
                  | error e => simp only [hl] at h; cases h
                  | ok p =>
                      obtain ⟨ps, s1⟩ := p
                      simp only [hl, Except.ok.injEq, Prod.mk.injEq] at h
                      obtain ⟨-, h2⟩ := h
                      subst h2
                      exact fmtListSeq_suffix (formatValueB hp b) ih (es.take 50) seen ps s1 hl
              | mapN es =>
                  simp only [hnd] at h
                  by_cases hmem : a ∈ seen
                  · rw [if_pos hmem] at h; cases h; exact List.suffix_refl _
                  · rw [if_neg hmem] at h
                    cases hl : mapEntriesLoop (formatValueB hp b) es 0 (a :: seen) with
                    | error e => simp only [hl] at h; cases h
                    | ok p =>
                        obtain ⟨ps, s1⟩ := p
                        simp only [hl, Except.ok.injEq, Prod.mk.injEq] at h
                        obtain ⟨-, h2⟩ := h
                        subst h2
                        exact (List.suffix_cons a seen).trans
                          (mapEntriesLoop_suffix (formatValueB hp b) ih es 0 (a :: seen) ps s1 hl)
              | setN es =>
                  simp only [hnd] at h
                  by_cases hmem : a ∈ seen
                  · rw [if_pos hmem] at h; cases h; exact List.suffix_refl _
                  · rw [if_neg hmem] at h
                    cases hl : setElemsLoop (formatValueB hp b) es 0 (a :: seen) with
                    | error e => simp only [hl] at h; cases h
                    | ok p =>
                        obtain ⟨ps, s1⟩ := p
                        simp only [hl, Except.ok.injEq, Prod.mk.injEq] at h
                        obtain ⟨-, h2⟩ := h
                        subst h2
                        exact (List.suffix_cons a seen).trans
                          (setElemsLoop_suffix (formatValueB hp b) ih es 0 (a :: seen) ps s1 hl)
              | objN ps0 =>
                  simp only [hnd] at h
                  by_cases hmem : a ∈ seen
                  · rw [if_pos hmem] at h; cases h; exact List.suffix_refl _
                  · rw [if_neg hmem] at h
                    cases hl : objPropsLoop (formatValueB hp b) (ps0.take 50) (a :: seen) with
                    | error e => simp only [hl] at h; cases h
                    | ok p =>
                        obtain ⟨ps, s1⟩ := p
                        simp only [hl, Except.ok.injEq, Prod.mk.injEq] at h
                        obtain ⟨-, h2⟩ := h
                        subst h2
                        exact (List.suffix_cons a seen).trans
                          (objPropsLoop_suffix (formatValueB hp b) ih (ps0.take 50) (a :: seen)
                            ps s1 hl)

/-! Claim theorems. -/

/-- Claim C2 (amended): submitting `"let x = 1; x + 1"` yields a Result
event with formatted value "2" and no Fault — but through the first attempt:
direct eval evaluates the statement sequence, which succeeds with completion
value 2, so the block fallback is not exercised (the terminal event is the
same whatever the fallback attempt would produce). -/
theorem claim_C2_amended : ∀ b : Outcome,
    jsDirectEval letxProgram = .ok (.vNum 2) ∧
    evalCode [] "s1" (jsDirectEval letxProgram) b = .ok [.resultM "s1" "2"] := by
  intro b
  exact ⟨rfl, rfl⟩

/-- Claim C2 counterexample: the expression-evaluation attempt does not
reject `"let x = 1; x + 1"` — direct eval runs the statement sequence and
succeeds with 2 (first conjunct), so no fallback happens and the result is
"2" even if the fallback attempt were to fault (second conjunct); moreover,
had step 1 rejected the text as the claim asserts, the async-block fallback
would return undefined (its body has no return statement), yielding Result
"undefined", not "2" (last two conjuncts). -/
theorem claim_C2_counterexample :
    jsDirectEval letxProgram = .ok (.vNum 2)
    ∧ evalCode [] "s0" (jsDirectEval letxProgram) (.fault (.vStr "SyntaxError")) =
        .ok [.resultM "s0" "2"]
    ∧ jsAsyncBlockEval letxProgram = .ok .vUndefined
    ∧ evalCode [] "s0" (.fault (.vStr "SyntaxError")) (jsAsyncBlockEval letxProgram) =
        .ok [.resultM "s0" "undefined"] :=
  ⟨rfl, rfl, rfl, rfl⟩

/-- Claim C3 (amended): for every cyclic Map, Set or plain object the
formatter renders the fixed circular-reference marker the moment the
already-visited value is reached again, leaving the visited set unchanged
and never recursing into the value a second time (first conjunct, at every
depth); arrays, however, carry no visited-set check: a cyclic array is
terminated only by the depth bound, re-entering the cycle until the budget
is exhausted, where it renders the collapsed array form, not a circular
marker (second conjunct). -/
theorem claim_C3_amended :
    (∀ (hp : Heap) (b : Nat) (a : Nat) (seen : Seen) (nd : Node) (m : String),
      heapFind hp a = some nd → circularMarkerFor nd = some m → a ∈ seen →
      formatValueB hp b (.ref a) seen = .ok (m, seen))
    ∧ (∀ (hp : Heap) (a : Nat) (elems : List Value) (seen : Seen),
        heapFind hp a = some (.arrN elems) →
        formatValueB hp 0 (.ref a) seen =
          .ok ("Array(" ++ toString elems.length ++ ") […]", seen)) :=
  ⟨fun hp b a seen nd m hnd hm hmem => formatValueB_visited hp b a seen nd m hnd hm hmem,
   fun hp a elems seen hnd => formatValueB_arr_budget0 hp a elems seen hnd⟩

/-- Claim C3 witness: a Map already in the visited set renders the marker
and leaves the set unchanged. -/
theorem claim_C3_witness :
    heapFind [(0, Node.mapN [])] 0 = some (.mapN [])
    ∧ circularMarkerFor (.mapN []) = some "[Circular Map]"
    ∧ 0 ∈ [0]
    ∧ formatValueB [(0, Node.mapN [])] 1 (.ref 0) [0] = .ok ("[Circular Map]", [0]) :=
  ⟨rfl, rfl, by decide,
   claim_C3_amended.1 [(0, Node.mapN [])] 1 0 [0] (.mapN []) "[Circular Map]" rfl rfl
     (by decide)⟩

/-- Claim C3 counterexample: the cyclic array `a = [a]` terminates through
the depth bound alone — it is re-entered three more times and the rendering
contains no circular-reference marker at all, only the depth ellipsis. -/
theorem claim_C3_counterexample :
    formatValue cycArrHeap (.ref 0) 0 [] = .ok (cexArrayStr, [])
    ∧ strHasSub cexArrayStr "[Circular" = false
    ∧ strHasSub cexArrayStr "[…]" = true := by
  refine ⟨by decide, by decide, by decide⟩

/-- Claim C5 (amended): at depth greater than 2 no composite value is
enumerated; a Map, Set or plain object that is already in the visited set
renders its circular-reference marker (the visited check precedes the depth
check), and otherwise a composite collapses to its fixed placeholder —
`Array(n) […]`, `Map(…)`, `Set(…)`, or the brace ellipsis — with Maps, Sets
and objects still entering the visited set.  Hence the rendered text never
expands more than 3 nested composite levels. -/
theorem claim_C5_amended :
    ∀ (hp : Heap) (a : Nat) (seen : Seen) (d : Nat), 2 < d →
      (∀ (nd : Node) (m : String), heapFind hp a = some nd → circularMarkerFor nd = some m →
        a ∈ seen → formatValue hp (.ref a) d seen = .ok (m, seen))
      ∧ (∀ elems, heapFind hp a = some (.arrN elems) →
          formatValue hp (.ref a) d seen =
            .ok ("Array(" ++ toString elems.length ++ ") […]", seen))
      ∧ (∀ entries, heapFind hp a = some (.mapN entries) → a ∉ seen →
          formatValue hp (.ref a) d seen = .ok ("Map(…)", a :: seen))
      ∧ (∀ elems, heapFind hp a = some (.setN elems) → a ∉ seen →
          formatValue hp (.ref a) d seen = .ok ("Set(…)", a :: seen))
      ∧ (∀ props, heapFind hp a = some (.objN props) → a ∉ seen →
          formatValue hp (.ref a) d seen = .ok ("\x7b…\x7d", a :: seen)) := by
  intro hp a seen d hd
  have hb : 3 - d = 0 := by omega
  unfold formatValue
  rw [hb]
  refine ⟨?_, ?_, ?_, ?_, ?_⟩
  · intro nd m hnd hm hmem
    exact formatValueB_visited hp 0 a seen nd m hnd hm hmem
  · intro elems hnd
    simp [formatValueB, hnd]
  · intro entries hnd hmem
    simp [formatValueB, hnd, hmem]
  · intro elems hnd hmem
    simp [formatValueB, hnd, hmem]
  · intro props hnd hmem
    simp [formatValueB, hnd, hmem]

/-- Claim C5 witness: at depth 3 a fresh empty Map collapses to `Map(…)`
(and, when already visited, renders the circular marker instead). -/
theorem claim_C5_witness :
    (2 < 3)
    ∧ heapFind cyc5 3 = some (.mapN [])
    ∧ ¬ (3 ∈ ([] : Seen))
    ∧ formatValue cyc5 (.ref 3) 3 [] = .ok ("Map(…)", [3])
    ∧ (3 ∈ [2, 1, 3])
    ∧ formatValue cyc5 (.ref 3) 3 [2, 1, 3] = .ok ("[Circular Map]", [2, 1, 3]) :=
  ⟨by decide, rfl, by decide,
   (claim_C5_amended cyc5 3 [] 3 (by decide)).2.2.1 [] rfl (by decide),
   by decide,
   (claim_C5_amended cyc5 3 [2, 1, 3] 3 (by decide)).1 (.mapN []) "[Circular Map]" rfl rfl
     (by decide)⟩

/-- Claim C5 counterexample: a Map reached at depth 3 after having been
visited at depth 1 renders "[Circular Map]", not the ellipsis placeholder
the claim mandates for every composite at depth > 2; the first conjunct
shows the full top-level rendering in which this happens. -/
theorem claim_C5_counterexample :
    formatValue cyc5 (.ref 0) 0 [] = .ok (cexDepthStr, [2, 1, 3])
    ∧ formatValue cyc5 (.ref 3) 3 [2, 1, 3] = .ok ("[Circular Map]", [2, 1, 3])
    ∧ "[Circular Map]" ≠ "Map(…)" := by
  refine ⟨by decide, by decide, by decide⟩

/-- Claim C7 (amended): a Result event whose id is pending is timed with
`max 0 (now − startedAt)` and its entry is removed; a Result whose id is
unknown is surfaced without timing; but a Fault event is always surfaced
without timing and never consults or removes the pending entry, even when
its id is present in the pending map. -/
theorem claim_C7_amended :
    (∀ (pending : List (String × Int)) (now : Int) (id f : String) (st : Int),
      assocFind pending id = some st →
      onWorkerMessage pending now (.resultM id f) =
        ⟨some ⟨"result", f, some (max 0 (now - st))⟩, eraseId pending id,
         some ("done in " ++ toString (max 0 (now - st)) ++ " ms")⟩
      ∧ assocFind (eraseId pending id) id = none)
    ∧ (∀ (pending : List (String × Int)) (now : Int) (id f : String),
        assocFind pending id = none →
        onWorkerMessage pending now (.resultM id f) =
          ⟨some ⟨"result", f, none⟩, pending, none⟩)
    ∧ (∀ (pending : List (String × Int)) (now : Int) (oid : Option String) (f : String),
        onWorkerMessage pending now (.errorM oid f) =
          ⟨some ⟨"error", f, none⟩, pending, some "error"⟩) := by
  refine ⟨?_, ?_, ?_⟩
  · intro pending now id f st h
    exact ⟨by simp [onWorkerMessage, h], assocFind_eraseId pending id⟩
  · intro pending now id f h
    simp [onWorkerMessage, h]
  · intro pending now oid f
    rfl

/-- Claim C7 witness: a pending Result is timed (9 − 5 clamped at 0 is 4)
and removed. -/
theorem claim_C7_witness :
    assocFind [("a", (5 : Int))] "a" = some 5
    ∧ (onWorkerMessage [("a", 5)] 9 (.resultM "a" "ok") =
        ⟨some ⟨"result", "ok", some (max 0 ((9 : Int) - 5))⟩, eraseId [("a", 5)] "a",
         some ("done in " ++ toString (max 0 ((9 : Int) - 5)) ++ " ms")⟩
      ∧ assocFind (eraseId [("a", (5 : Int))] "a") "a" = none) :=
  ⟨rfl, claim_C7_amended.1 [("a", 5)] 9 "a" "ok" 5 rfl⟩

/-- Claim C7 counterexample: a Fault event whose id "a" is present in the
pending map is surfaced without any timing information and the pending entry
survives untouched — the claim requires the elapsed time to be computed and
the entry removed for every terminal event with a pending id. -/
theorem claim_C7_counterexample :
    onWorkerMessage [("a", 5)] 9 (.errorM (some "a") "boom") =
      ⟨some ⟨"error", "boom", none⟩, [("a", 5)], some "error"⟩
    ∧ assocFind (onWorkerMessage [("a", 5)] 9 (.errorM (some "a") "boom")).pending "a" =
        some 5 :=
  ⟨rfl, rfl⟩

/-- Claim C9 (amended): `resolveSpec` passes absolute http(s) locators and
root-relative/relative paths through unchanged and maps each of the seven
alias names to its fixed locator under the CDN; a bare name that is neither
an alias nor an inherited `Object.prototype` member name gets the
`name@latest` fallback under the same CDN — but a bare name that names an
inherited member (`toString`, `constructor`, `valueOf`, `hasOwnProperty`,
`__proto__`, …) instead yields a locator built from the inherited member's
stringification, because the alias lookup `map[name]` consults the
prototype chain and the inherited member is truthy.  The whitespace-free
hypothesis expresses that locators, paths and bare names contain no
surrounding whitespace (the source first applies trim). -/
theorem claim_C9_amended :
    (∀ s : String, jsTrim s = s →
      (isHttpAbs s || strLeads s "/" || strLeads s "./" || strLeads s "../") = true →
      resolveSpec s = s)
    ∧ resolveSpec "lodash" = "https://cdn.jsdelivr.net/npm/lodash@latest/lodash.min.js"
    ∧ resolveSpec "dayjs" = "https://cdn.jsdelivr.net/npm/dayjs@latest/dayjs.min.js"
    ∧ resolveSpec "rxjs" = "https://cdn.jsdelivr.net/npm/rxjs@7/dist/bundles/rxjs.umd.min.js"
    ∧ resolveSpec "ramda" = "https://cdn.jsdelivr.net/npm/ramda@latest/dist/ramda.min.js"
    ∧ resolveSpec "underscore" =
        "https://cdn.jsdelivr.net/npm/underscore@latest/underscore-min.js"
    ∧ resolveSpec "decimal.js" = "https://cdn.jsdelivr.net/npm/decimal.js@latest/decimal.min.js"
    ∧ resolveSpec "papaparse" = "https://cdn.jsdelivr.net/npm/papaparse@latest/papaparse.min.js"
    ∧ (∀ s : String, jsTrim s = s →
        (isHttpAbs s || strLeads s "/" || strLeads s "./" || strLeads s "../") = false →
        assocFind aliasTable s = none →
        objectProtoMemberNames.contains s = false →
        resolveSpec s = cdnBase ++ (s ++ "@latest"))
    ∧ (∀ s : String, jsTrim s = s →
        (isHttpAbs s || strLeads s "/" || strLeads s "./" || strLeads s "../") = false →
        assocFind aliasTable s = none →
        objectProtoMemberNames.contains s = true →
        resolveSpec s = cdnBase ++ inheritedMemberText s) := by
  refine ⟨?_, by decide, by decide, by decide, by decide, by decide, by decide, by decide,
    ?_, ?_⟩
  · intro s hs hc
    simp [resolveSpec, hs, hc]
  · intro s hs hc hl hn
    have hn2 : ¬ (s ∈ objectProtoMemberNames) := by simpa using hn
    simp [resolveSpec, hs, hc, hl, hn2]
  · intro s hs hc hl hn
    have hn2 : s ∈ objectProtoMemberNames := by simpa using hn
    simp [resolveSpec, hs, hc, hl, hn2]

/-- Claim C9 witness: a relative path passes through unchanged, an unknown
bare name gets the `@latest` fallback locator, and the inherited-member name
"valueOf" gets the prototype-chain locator instead. -/
theorem claim_C9_witness :
    (jsTrim "./x.js" = "./x.js"
      ∧ (isHttpAbs "./x.js" || strLeads "./x.js" "/" || strLeads "./x.js" "./" ||
          strLeads "./x.js" "../") = true
      ∧ resolveSpec "./x.js" = "./x.js")
    ∧ (jsTrim "some-unknown-pkg" = "some-unknown-pkg"
      ∧ (isHttpAbs "some-unknown-pkg" || strLeads "some-unknown-pkg" "/" ||
          strLeads "some-unknown-pkg" "./" || strLeads "some-unknown-pkg" "../") = false
      ∧ assocFind aliasTable "some-unknown-pkg" = none
      ∧ objectProtoMemberNames.contains "some-unknown-pkg" = false
      ∧ resolveSpec "some-unknown-pkg" = cdnBase ++ ("some-unknown-pkg" ++ "@latest"))
    ∧ (jsTrim "valueOf" = "valueOf"
      ∧ (isHttpAbs "valueOf" || strLeads "valueOf" "/" || strLeads "valueOf" "./" ||
          strLeads "valueOf" "../") = false
      ∧ assocFind aliasTable "valueOf" = none
      ∧ objectProtoMemberNames.contains "valueOf" = true
      ∧ resolveSpec "valueOf" = cdnBase ++ inheritedMemberText "valueOf") :=
  ⟨⟨by decide, by decide, claim_C9_amended.1 "./x.js" (by decide) (by decide)⟩,
   ⟨by decide, by decide, by decide, by decide,
    claim_C9_amended.2.2.2.2.2.2.2.2.1 "some-unknown-pkg" (by decide) (by decide) (by decide)
      (by decide)⟩,
   ⟨by decide, by decide, by decide, by decide,
    claim_C9_amended.2.2.2.2.2.2.2.2.2 "valueOf" (by decide) (by decide) (by decide)
      (by decide)⟩⟩

/-- Claim C9 counterexample: the bare name "__proto__" is not in the alias
table, yet `map["__proto__"]` finds the inherited accessor whose value is
`Object.prototype` itself — a truthy object whose ToString is exactly
"[object Object]" — so the resolved locator is built from that text, not the
`__proto__@latest` fallback the claim mandates for every other bare name. -/
theorem claim_C9_counterexample :
    resolveSpec "__proto__" = cdnBase ++ "[object Object]"
    ∧ resolveSpec "__proto__" ≠ cdnBase ++ ("__proto__" ++ "@latest") := by
  refine ⟨by decide, by decide⟩

/-- Claim C10 (confirmed): within one top-level call the visited set is a
single shared set threaded through the whole traversal, only ever growing
(every successful sub-format leaves the incoming visited set as a suffix of
the outgoing one — nothing is ever removed); and any Map, Set or plain
object that is reached while already in the visited set — cycle or mere
shared acyclic reference — renders as its circular marker immediately,
without entering its members. -/
theorem claim_C10 :
    (∀ (hp : Heap) (b : Nat) (v : Value) (seen : Seen) (out : String) (seen2 : Seen),
      formatValueB hp b v seen = .ok (out, seen2) → seen <:+ seen2)
    ∧ (∀ (hp : Heap) (b : Nat) (a : Nat) (seen : Seen) (nd : Node) (m : String),
        heapFind hp a = some nd → circularMarkerFor nd = some m → a ∈ seen →
        formatValueB hp b (.ref a) seen = .ok (m, seen)) :=
  ⟨fun hp b v seen out seen2 h => formatValueB_suffix hp b v seen out seen2 h,
   fun hp b a seen nd m hnd hm hmem => formatValueB_visited hp b a seen nd m hnd hm hmem⟩

/-- Claim C10 witness: formatting `[o, o]` (one shared empty object) renders
the object once and the circular marker at the second occurrence; the
visited set grows from `[]` to `[1]` and is still `[1]` when the second
occurrence is reached. -/
theorem claim_C10_witness :
    formatValueB sharedHeap 3 (.ref 0) [] = .ok ("Array(2) [\x7b  \x7d, [Circular]]", [1])
    ∧ ([] : Seen) <:+ [1]
    ∧ heapFind sharedHeap 1 = some (.objN [])
    ∧ circularMarkerFor (.objN []) = some "[Circular]"
    ∧ 1 ∈ [1]
    ∧ formatValueB sharedHeap 2 (.ref 1) [1] = .ok ("[Circular]", [1]) :=
  ⟨by decide,
   claim_C10.1 sharedHeap 3 (.ref 0) [] "Array(2) [\x7b  \x7d, [Circular]]" [1] (by decide),
   rfl, rfl, by decide,
   claim_C10.2 sharedHeap 2 1 [1] (.objN []) "[Circular]" rfl rfl (by decide)⟩

/-- Claim C8 (amended): a tabular request uses the explicit column list
verbatim when a non-empty one is supplied; when no column list — or an empty
one — is supplied it falls back to the union of the rows' keys in first-seen
order (the source requires `columns.length` to be non-zero); every cell goes
through the formatter, and the spec's example `[{a:1,b:2},{a:3,b:4}]`
without explicit columns yields headers ["a","b"] and rows
[["1","2"],["3","4"]]. -/
theorem claim_C8_amended :
    (∀ (hp : Heap) (data : Value) (c : String) (cs : List String) (ev : TableEvent),
      consoleTable hp data (some (c :: cs)) = .ok ev → ev.headers = c :: cs)
    ∧ (∀ (hp : Heap) (data : Value) (rows : List TRow) (ev : TableEvent),
        rowsOf hp data = .ok rows →
        consoleTable hp data none = .ok ev → ev.headers = unionKeys hp rows)
    ∧ (∀ (hp : Heap) (data : Value) (rows : List TRow) (ev : TableEvent),
        rowsOf hp data = .ok rows →
        consoleTable hp data (some []) = .ok ev → ev.headers = unionKeys hp rows)
    ∧ consoleTable tblHeap (.ref 0) none =
        .ok ⟨["a", "b"], [["1", "2"], ["3", "4"]]⟩ := by
  refine ⟨?_, ?_, ?_, by decide⟩
  · intro hp data c cs ev h
    simp only [consoleTable] at h
    cases hr : rowsOf hp data with
    | error e => simp only [hr] at h; cases h
    | ok rows =>
        simp only [hr] at h
        cases ht : tableRowsLoop hp (c :: cs) rows with
        | error e => simp only [ht] at h; cases h
        | ok trs =>
            simp only [ht, Except.ok.injEq] at h
            rw [← h]
  · intro hp data rows ev hr h
    simp only [consoleTable, hr] at h
    cases ht : tableRowsLoop hp (unionKeys hp rows) rows with
    | error e => simp only [ht] at h; cases h
    | ok trs =>
        simp only [ht, Except.ok.injEq] at h
        rw [← h]
  · intro hp data rows ev hr h
    simp only [consoleTable, hr] at h
    cases ht : tableRowsLoop hp (unionKeys hp rows) rows with
    | error e => simp only [ht] at h; cases h
    | ok trs =>
        simp only [ht, Except.ok.injEq] at h
        rw [← h]

/-- Claim C8 witness: an explicit non-empty column list ["b"] is used
verbatim on the example rows. -/
theorem claim_C8_witness :
    consoleTable tblHeap (.ref 0) (some ["b"]) = .ok ⟨["b"], [["2"], ["4"]]⟩
    ∧ (⟨["b"], [["2"], ["4"]]⟩ : TableEvent).headers = ["b"] :=
  ⟨by decide,
   claim_C8_amended.1 tblHeap (.ref 0) "b" [] ⟨["b"], [["2"], ["4"]]⟩ (by decide)⟩

/-- Claim C8 counterexample: an explicitly supplied empty column list is not
used verbatim — the headers fall back to the key union ["a"] instead of
being empty, because the source treats `columns.length = 0` as absent. -/
theorem claim_C8_counterexample :
    consoleTable tblHeap2 (.ref 0) (some []) = .ok ⟨["a"], [["1"]]⟩
    ∧ (⟨["a"], [["1"]]⟩ : TableEvent).headers ≠ ([] : List String) :=
  ⟨by decide, by decide⟩

/-- Unfolding the array branch at positive budget. -/
theorem formatValueB_arr_succ (hp : Heap) (b : Nat) (a : Nat) (elems : List Value) (seen : Seen)
    (hnd : heapFind hp a = some (.arrN elems)) :
    formatValueB hp (b + 1) (.ref a) seen =
      match fmtListSeq (formatValueB hp b) (elems.take 50) seen with
      | .error e => .error e
      | .ok (ps, s1) =>
          .ok ("Array(" ++ toString elems.length ++ ") [" ++ joinParts ps ++
               (if 50 < elems.length then ", …" else "") ++ "]", s1) := by
  simp only [formatValueB, hnd]

/-- Unfolding the Map branch at positive budget for an unvisited Map. -/
theorem formatValueB_map_succ (hp : Heap) (b : Nat) (a : Nat) (entries : List (Value × Value))
    (seen : Seen) (hnd : heapFind hp a = some (.mapN entries)) (hmem : a ∉ seen) :
    formatValueB hp (b + 1) (.ref a) seen =
      match mapEntriesLoop (formatValueB hp b) entries 0 (a :: seen) with
      | .error e => .error e
      | .ok (ps, s1) =>
          .ok ("Map(" ++ toString entries.length ++ ") \x7b " ++ joinParts ps ++ " \x7d", s1) := by
  simp only [formatValueB, hnd, if_neg hmem]

/-- Unfolding the Set branch at positive budget for an unvisited Set. -/
theorem formatValueB_set_succ (hp : Heap) (b : Nat) (a : Nat) (elems : List Value)
    (seen : Seen) (hnd : heapFind hp a = some (.setN elems)) (hmem : a ∉ seen) :
    formatValueB hp (b + 1) (.ref a) seen =
      match setElemsLoop (formatValueB hp b) elems 0 (a :: seen) with
      | .error e => .error e
      | .ok (ps, s1) =>
          .ok ("Set(" ++ toString elems.length ++ ") \x7b " ++ joinParts ps ++ " \x7d", s1) := by
  simp only [formatValueB, hnd, if_neg hmem]

/-- Unfolding the generic-object branch at positive budget for an unvisited
object. -/
theorem formatValueB_obj_succ (hp : Heap) (b : Nat) (a : Nat)
    (props : List (String × PropVal)) (seen : Seen)
    (hnd : heapFind hp a = some (.objN props)) (hmem : a ∉ seen) :
    formatValueB hp (b + 1) (.ref a) seen =
      match objPropsLoop (formatValueB hp b) (props.take 50) (a :: seen) with
      | .error e => .error e
      | .ok (ps, s1) =>
          .ok ("\x7b " ++ joinParts (ps ++ (if 50 < props.length then ["…"] else [])) ++
               " \x7d", s1) := by
  simp only [formatValueB, hnd, if_neg hmem]

/-- What the Map-entry counter loop computes: with the counter started at
`i ≤ 50`, when the entries fit (`length + i ≤ 50`) every entry is formatted
and no marker is appended; otherwise exactly the first `51 - i` entries are
formatted — one more than the iterations left before the cut — and a single
"…" marker is appended. -/
theorem mapEntriesLoop_char (fmt : Value → Seen → Except Value (String × Seen)) :
    ∀ (es : List (Value × Value)) (i : Nat) (s : Seen), i ≤ 50 →
      mapEntriesLoop fmt es i s =
        if es.length + i ≤ 50 then fmtPairsSeq fmt es s
        else
          match fmtPairsSeq fmt (es.take (51 - i)) s with
          | .error e => .error e
          | .ok (ps, s1) => .ok (ps ++ ["…"], s1) := by
  intro es
  induction es with
  | nil =>
      intro i s hi
      have hfit : (([] : List (Value × Value)).length + i ≤ 50) := by simpa using hi
      rw [if_pos hfit]
      rfl
  | cons kv rest ih =>
      intro i s hi
      obtain ⟨k, v⟩ := kv
      have htake : 51 - i = (50 - i) + 1 := by omega
      simp only [mapEntriesLoop]
      cases h1 : fmt k s with
      | error e =>
          by_cases hfit : ((k, v) :: rest).length + i ≤ 50
          · rw [if_pos hfit]
            simp [fmtPairsSeq, h1]
          · rw [if_neg hfit, htake, List.take_succ_cons]
            simp [fmtPairsSeq, h1]
      | ok p =>
          obtain ⟨ks, s1⟩ := p
          simp only [h1]
          cases h2 : fmt v s1 with
          | error e =>
              by_cases hfit : ((k, v) :: rest).length + i ≤ 50
              · rw [if_pos hfit]
                simp [fmtPairsSeq, h1, h2]
              · rw [if_neg hfit, htake, List.take_succ_cons]
                simp [fmtPairsSeq, h1, h2]
          | ok q =>
              obtain ⟨vs, s2⟩ := q
              simp only [h2]
              by_cases hcut : i + 1 > 50
              · rw [if_pos hcut]
                have hfit : ¬ (((k, v) :: rest).length + i ≤ 50) := by
                  simp only [List.length_cons]
                  omega
                rw [if_neg hfit, htake]
                have h50 : 50 - i = 0 := by omega
                rw [h50, List.take_succ_cons, List.take_zero]
                simp [fmtPairsSeq, h1, h2]
              · rw [if_neg hcut]
                rw [ih (i + 1) s2 (by omega)]
                by_cases hfit : rest.length + (i + 1) ≤ 50
                · rw [if_pos hfit]
                  have hfit2 : ((k, v) :: rest).length + i ≤ 50 := by
                    simp only [List.length_cons]
                    omega
                  rw [if_pos hfit2]
                  simp only [fmtPairsSeq, h1, h2]
                · rw [if_neg hfit]
                  have hfit2 : ¬ (((k, v) :: rest).length + i ≤ 50) := by
                    simp only [List.length_cons]
                    omega
                  rw [if_neg hfit2, htake, List.take_succ_cons]
                  have heq : 51 - (i + 1) = 50 - i := by omega
                  rw [heq]
                  simp only [fmtPairsSeq, h1, h2]
                  cases h3 : fmtPairsSeq fmt (rest.take (50 - i)) s2 with
                  | error e => simp [h3]
                  | ok r =>
                      obtain ⟨ps, s3⟩ := r
                      simp [h3]

/-- What the Set-element counter loop computes, analogously. -/
theorem setElemsLoop_char (fmt : Value → Seen → Except Value (String × Seen)) :
    ∀ (es : List Value) (i : Nat) (s : Seen), i ≤ 50 →
      setElemsLoop fmt es i s =
        if es.length + i ≤ 50 then fmtListSeq fmt es s
        else
          match fmtListSeq fmt (es.take (51 - i)) s with
          | .error e => .error e
          | .ok (ps, s1) => .ok (ps ++ ["…"], s1) := by
  intro es
  induction es with
  | nil =>
      intro i s hi
      have hfit : (([] : List Value).length + i ≤ 50) := by simpa using hi
      rw [if_pos hfit]
      rfl
  | cons v rest ih =>
      intro i s hi
      have htake : 51 - i = (50 - i) + 1 := by omega
      simp only [setElemsLoop]
      cases h1 : fmt v s with
      | error e =>
          by_cases hfit : (v :: rest).length + i ≤ 50
          · rw [if_pos hfit]
            simp [fmtListSeq, h1]
          · rw [if_neg hfit, htake, List.take_succ_cons]
            simp [fmtListSeq, h1]
      | ok p =>
          obtain ⟨o, s1⟩ := p
          simp only [h1]
          by_cases hcut : i + 1 > 50
          · rw [if_pos hcut]
            have hfit : ¬ ((v :: rest).length + i ≤ 50) := by
              simp only [List.length_cons]
              omega
            rw [if_neg hfit, htake]
            have h50 : 50 - i = 0 := by omega
            rw [h50, List.take_succ_cons, List.take_zero]
            simp [fmtListSeq, h1]
          · rw [if_neg hcut]
            rw [ih (i + 1) s1 (by omega)]
            by_cases hfit : rest.length + (i + 1) ≤ 50
            · rw [if_pos hfit]
              have hfit2 : (v :: rest).length + i ≤ 50 := by
                simp only [List.length_cons]
                omega
              rw [if_pos hfit2]
              simp only [fmtListSeq, h1]
            · rw [if_neg hfit]
              have hfit2 : ¬ ((v :: rest).length + i ≤ 50) := by
                simp only [List.length_cons]
                omega
              rw [if_neg hfit2, htake, List.take_succ_cons]
              have heq : 51 - (i + 1) = 50 - i := by omega
              rw [heq]
              simp only [fmtListSeq, h1]
              cases h3 : fmtListSeq fmt (rest.take (50 - i)) s1 with
              | error e => simp [h3]
              | ok r =>
                  obtain ⟨ps, s3⟩ := r
                  simp [h3]

/-- Claim C4 (amended): for a top-level (depth 0) format of a collection
with more than 50 members, arrays and generic objects render exactly the
first 50 members in order followed by one truncation marker — but Maps and
Sets render the first 51 entries followed by the marker: their loop pushes
the entry before testing the counter (`if (++i > 50)`), so the 51st entry is
emitted and the marker even appears when nothing was omitted (size exactly
51). -/
theorem claim_C4_amended :
    (∀ (hp : Heap) (a : Nat) (elems : List Value) (seen : Seen),
      heapFind hp a = some (.arrN elems) → 50 < elems.length →
      formatValue hp (.ref a) 0 seen =
        match fmtListSeq (formatValueB hp 2) (elems.take 50) seen with
        | .error e => .error e
        | .ok (ps, s1) =>
            .ok ("Array(" ++ toString elems.length ++ ") [" ++ joinParts ps ++ ", …" ++ "]",
                 s1))
    ∧ (∀ (hp : Heap) (a : Nat) (props : List (String × PropVal)) (seen : Seen),
        heapFind hp a = some (.objN props) → a ∉ seen → 50 < props.length →
        formatValue hp (.ref a) 0 seen =
          match objPropsLoop (formatValueB hp 2) (props.take 50) (a :: seen) with
          | .error e => .error e
          | .ok (ps, s1) => .ok ("\x7b " ++ joinParts (ps ++ ["…"]) ++ " \x7d", s1))
    ∧ (∀ (hp : Heap) (a : Nat) (entries : List (Value × Value)) (seen : Seen),
        heapFind hp a = some (.mapN entries) → a ∉ seen → 50 < entries.length →
        formatValue hp (.ref a) 0 seen =
          match fmtPairsSeq (formatValueB hp 2) (entries.take 51) (a :: seen) with
          | .error e => .error e
          | .ok (ps, s1) =>
              .ok ("Map(" ++ toString entries.length ++ ") \x7b " ++
                   joinParts (ps ++ ["…"]) ++ " \x7d", s1))
    ∧ (∀ (hp : Heap) (a : Nat) (elems : List Value) (seen : Seen),
        heapFind hp a = some (.setN elems) → a ∉ seen → 50 < elems.length →
        formatValue hp (.ref a) 0 seen =
          match fmtListSeq (formatValueB hp 2) (elems.take 51) (a :: seen) with
          | .error e => .error e
          | .ok (ps, s1) =>
              .ok ("Set(" ++ toString elems.length ++ ") \x7b " ++
                   joinParts (ps ++ ["…"]) ++ " \x7d", s1)) := by
  refine ⟨?_, ?_, ?_, ?_⟩
  · intro hp a elems seen hnd h50
    have h0 : formatValue hp (.ref a) 0 seen = formatValueB hp (2 + 1) (.ref a) seen := rfl
    rw [h0, formatValueB_arr_succ hp 2 a elems seen hnd]
    simp only [if_pos h50]
  · intro hp a props seen hnd hmem h50
    have h0 : formatValue hp (.ref a) 0 seen = formatValueB hp (2 + 1) (.ref a) seen := rfl
    rw [h0, formatValueB_obj_succ hp 2 a props seen hnd hmem]
    simp only [if_pos h50]
  · intro hp a entries seen hnd hmem h50
    have h0 : formatValue hp (.ref a) 0 seen = formatValueB hp (2 + 1) (.ref a) seen := rfl
    rw [h0, formatValueB_map_succ hp 2 a entries seen hnd hmem,
        mapEntriesLoop_char (formatValueB hp 2) entries 0 (a :: seen) (by omega)]
    have hfit : ¬ (entries.length + 0 ≤ 50) := by omega
    rw [if_neg hfit]
    simp only [Nat.sub_zero]
    cases h3 : fmtPairsSeq (formatValueB hp 2) (entries.take 51) (a :: seen) with
    | error e => simp [h3]
    | ok r =>
        obtain ⟨ps, s3⟩ := r
        simp [h3]
  · intro hp a elems seen hnd hmem h50
    have h0 : formatValue hp (.ref a) 0 seen = formatValueB hp (2 + 1) (.ref a) seen := rfl
    rw [h0, formatValueB_set_succ hp 2 a elems seen hnd hmem,
        setElemsLoop_char (formatValueB hp 2) elems 0 (a :: seen) (by omega)]
    have hfit : ¬ (elems.length + 0 ≤ 50) := by omega
    rw [if_neg hfit]
    simp only [Nat.sub_zero]
    cases h3 : fmtListSeq (formatValueB hp 2) (elems.take 51) (a :: seen) with
    | error e => simp [h3]
    | ok r =>
        obtain ⟨ps, s3⟩ := r
        simp [h3]

/-- Claim C4 witness: the Map conjunct applied to a concrete 52-entry Map. -/
theorem claim_C4_witness :
    heapFind map52 0 = some (.mapN entries52)
    ∧ ¬ (0 ∈ ([] : Seen))
    ∧ 50 < entries52.length
    ∧ formatValue map52 (.ref 0) 0 [] =
        match fmtPairsSeq (formatValueB map52 2) (entries52.take 51) [0] with
        | .error e => .error e
        | .ok (ps, s1) =>
            .ok ("Map(" ++ toString entries52.length ++ ") \x7b " ++
                 joinParts (ps ++ ["…"]) ++ " \x7d", s1) :=
  ⟨rfl, by decide, by decide,
   claim_C4_amended.2.2.1 map52 0 entries52 [] rfl (by decide) (by decide)⟩

/-- Claim C4 counterexample: a Set with exactly 51 elements (more than 50)
renders all 51 elements and then the truncation marker — not "exactly the
first 50 elements followed by one truncation marker". -/
theorem claim_C4_counterexample :
    formatValue set51 (.ref 0) 0 [] = .ok (set51Str, [0])
    ∧ set51Str ≠ set50Str := by
  refine ⟨by decide, by decide⟩

/-- A successful association lookup means membership. -/
theorem assocFind_mem {α β : Type} [DecidableEq α] :
    ∀ (l : List (α × β)) (a : α) (b : β), assocFind l a = some b → (a, b) ∈ l := by
  intro l
  induction l with
  | nil => intro a b h; cases h
  | cons p rest ih =>
      intro a b h
      obtain ⟨k, v⟩ := p
      simp only [assocFind] at h
      by_cases hk : k = a
      · rw [if_pos hk] at h
        cases h
        subst hk
        exact List.mem_cons_self _ _
      · rw [if_neg hk] at h
        exact List.mem_cons_of_mem _ (ih a b h)

/-- In a getters-free heap, every property of every object is a plain data
property. -/
theorem gettersFree_props (hp : Heap) (hg : gettersFree hp = true) (a : Nat)
    (props : List (String × PropVal)) (hnd : heapFind hp a = some (.objN props)) :
    ∀ q ∈ props, ∀ e, q.2 ≠ PropVal.getterThrow e := by
  intro q hq e hcontra
  have hmem : (a, Node.objN props) ∈ hp := assocFind_mem hp a _ hnd
  have h1 := List.all_eq_true.mp hg _ hmem
  simp only at h1
  have h2 := List.all_eq_true.mp h1 q hq
  rw [hcontra] at h2
  simp at h2

/-- Sequential formatting is total when the element formatter is. -/
theorem fmtListSeq_total (fmt : Value → Seen → Except Value (String × Seen))
    (hf : ∀ v s, ∃ p, fmt v s = .ok p) :
    ∀ (vs : List Value) (s : Seen), ∃ p, fmtListSeq fmt vs s = .ok p := by
  intro vs
  induction vs with
  | nil => intro s; exact ⟨([], s), rfl⟩
  | cons v rest ih =>
      intro s
      obtain ⟨⟨o, s1⟩, h1⟩ := hf v s
      obtain ⟨⟨ps, s2⟩, h2⟩ := ih s1
      exact ⟨(o :: ps, s2), by simp [fmtListSeq, h1, h2]⟩

/-- The Map-entry loop is total when the element formatter is. -/
theorem mapEntriesLoop_total (fmt : Value → Seen → Except Value (String × Seen))
    (hf : ∀ v s, ∃ p, fmt v s = .ok p) :
    ∀ (es : List (Value × Value)) (i : Nat) (s : Seen),
      ∃ p, mapEntriesLoop fmt es i s = .ok p := by
  intro es
  induction es with
  | nil => intro i s; exact ⟨([], s), rfl⟩
  | cons kv rest ih =>
      intro i s
      obtain ⟨k, v⟩ := kv
      obtain ⟨⟨ks, s1⟩, h1⟩ := hf k s
      obtain ⟨⟨vs, s2⟩, h2⟩ := hf v s1
      by_cases hcut : i + 1 > 50
      · exact ⟨([ks ++ " => " ++ vs, "…"], s2),
          by simp [mapEntriesLoop, h1, h2, if_pos hcut]⟩
      · obtain ⟨⟨ps, s3⟩, h3⟩ := ih (i + 1) s2
        exact ⟨((ks ++ " => " ++ vs) :: ps, s3),
          by simp [mapEntriesLoop, h1, h2, if_neg hcut, h3]⟩

/-- The Set-element loop is total when the element formatter is. -/
theorem setElemsLoop_total (fmt : Value → Seen → Except Value (String × Seen))
    (hf : ∀ v s, ∃ p, fmt v s = .ok p) :
    ∀ (es : List Value) (i : Nat) (s : Seen), ∃ p, setElemsLoop fmt es i s = .ok p := by
  intro es
  induction es with
  | nil => intro i s; exact ⟨([], s), rfl⟩
  | cons v rest ih =>
      intro i s
      obtain ⟨⟨o, s1⟩, h1⟩ := hf v s
      by_cases hcut : i + 1 > 50
      · exact ⟨([o, "…"], s1), by simp [setElemsLoop, h1, if_pos hcut]⟩
      · obtain ⟨⟨ps, s2⟩, h2⟩ := ih (i + 1) s1
        exact ⟨(o :: ps, s2), by simp [setElemsLoop, h1, if_neg hcut, h2]⟩

/-- The object-property loop is total when the element formatter is and no
listed property is a throwing getter. -/
theorem objPropsLoop_total (fmt : Value → Seen → Except Value (String × Seen))
    (hf : ∀ v s, ∃ p, fmt v s = .ok p) :
    ∀ (ps0 : List (String × PropVal)),
      (∀ q ∈ ps0, ∀ e, q.2 ≠ PropVal.getterThrow e) →
      ∀ s : Seen, ∃ p, objPropsLoop fmt ps0 s = .ok p := by
  intro ps0
  induction ps0 with
  | nil => intro _ s; exact ⟨([], s), rfl⟩
  | cons kp rest ih =>
      intro hq s
      obtain ⟨k, pv⟩ := kp
      cases pv with
      | getterThrow e =>
          exact absurd rfl (hq (k, .getterThrow e) (List.mem_cons_self _ _) e)
      | norm v =>
          obtain ⟨⟨o, s1⟩, h1⟩ := hf v s
          obtain ⟨⟨ps, s2⟩, h2⟩ :=
            ih (fun q hq2 => hq q (List.mem_cons_of_mem _ hq2)) s1
          exact ⟨((jsonStringify k ++ ": " ++ o) :: ps, s2),
            by simp [objPropsLoop, h1, h2]⟩

/-- In a getters-free heap the formatter never faults, at any budget. -/
theorem formatValueB_total (hp : Heap) (hg : gettersFree hp = true) :
    ∀ (b : Nat) (v : Value) (seen : Seen), ∃ p, formatValueB hp b v seen = .ok p := by
  intro b
  induction b with
  | zero =>
      intro v seen
      cases v with
      | vNull => exact ⟨("null", seen), rfl⟩
      | vUndefined => exact ⟨("undefined", seen), rfl⟩
      | vStr s => exact ⟨(jsonStringify s, seen), rfl⟩
      | vNum n => exact ⟨(toString n, seen), rfl⟩
      | vBool bb => exact ⟨(if bb then "true" else "false", seen), rfl⟩
      | ref a =>
          cases hnd : heapFind hp a with
          | none => exact ⟨("«dangling»", seen), by simp [formatValueB, hnd]⟩
          | some nd =>
              cases nd with
              | arrN es =>
                  exact ⟨("Array(" ++ toString es.length ++ ") […]", seen),
                    by simp [formatValueB, hnd]⟩
              | mapN es =>
                  by_cases hmem : a ∈ seen
                  · exact ⟨("[Circular Map]", seen), by simp [formatValueB, hnd, hmem]⟩
                  · exact ⟨("Map(…)", a :: seen), by simp [formatValueB, hnd, hmem]⟩
              | setN es =>
                  by_cases hmem : a ∈ seen
                  · exact ⟨("[Circular Set]", seen), by simp [formatValueB, hnd, hmem]⟩
                  · exact ⟨("Set(…)", a :: seen), by simp [formatValueB, hnd, hmem]⟩
              | objN ps =>
                  by_cases hmem : a ∈ seen
                  · exact ⟨("[Circular]", seen), by simp [formatValueB, hnd, hmem]⟩
                  · exact ⟨("\x7b…\x7d", a :: seen), by simp [formatValueB, hnd, hmem]⟩
  | succ b ih =>
      intro v seen
      cases v with
      | vNull => exact ⟨("null", seen), rfl⟩
      | vUndefined => exact ⟨("undefined", seen), rfl⟩
      | vStr s => exact ⟨(jsonStringify s, seen), rfl⟩
      | vNum n => exact ⟨(toString n, seen), rfl⟩
      | vBool bb => exact ⟨(if bb then "true" else "false", seen), rfl⟩
      | ref a =>
          cases hnd : heapFind hp a with
          | none => exact ⟨("«dangling»", seen), by simp [formatValueB, hnd]⟩
          | some nd =>
              cases nd with
              | arrN es =>
                  obtain ⟨⟨ps, s1⟩, hl⟩ :=
                    fmtListSeq_total (formatValueB hp b) ih (es.take 50) seen
                  exact ⟨("Array(" ++ toString es.length ++ ") [" ++ joinParts ps ++
                          (if 50 < es.length then ", …" else "") ++ "]", s1),
                    by rw [formatValueB_arr_succ hp b a es seen hnd, hl]⟩
              | mapN es =>
                  by_cases hmem : a ∈ seen
                  · exact ⟨("[Circular Map]", seen), by simp [formatValueB, hnd, hmem]⟩
                  · obtain ⟨⟨ps, s1⟩, hl⟩ :=
                      mapEntriesLoop_total (formatValueB hp b) ih es 0 (a :: seen)
                    exact ⟨("Map(" ++ toString es.length ++ ") \x7b " ++ joinParts ps ++
                            " \x7d", s1),
                      by rw [formatValueB_map_succ hp b a es seen hnd hmem, hl]⟩
              | setN es =>
                  by_cases hmem : a ∈ seen
                  · exact ⟨("[Circular Set]", seen), by simp [formatValueB, hnd, hmem]⟩
                  · obtain ⟨⟨ps, s1⟩, hl⟩ :=
                      setElemsLoop_total (formatValueB hp b) ih es 0 (a :: seen)
                    exact ⟨("Set(" ++ toString es.length ++ ") \x7b " ++ joinParts ps ++
                            " \x7d", s1),
                      by rw [formatValueB_set_succ hp b a es seen hnd hmem, hl]⟩
              | objN ps0 =>
                  by_cases hmem : a ∈ seen
                  · exact ⟨("[Circular]", seen), by simp [formatValueB, hnd, hmem]⟩
                  · have hq : ∀ q ∈ ps0.take 50, ∀ e, q.2 ≠ PropVal.getterThrow e :=
                      fun q hq2 => gettersFree_props hp hg a ps0 hnd q (List.take_subset _ _ hq2)
                    obtain ⟨⟨ps, s1⟩, hl⟩ :=
                      objPropsLoop_total (formatValueB hp b) ih (ps0.take 50) hq (a :: seen)
                    exact ⟨("\x7b " ++ joinParts (ps ++
                            (if 50 < ps0.length then ["…"] else [])) ++ " \x7d", s1),
                      by rw [formatValueB_obj_succ hp b a ps0 seen hnd hmem, hl]⟩

/-- Claim C6 (amended): `format` is not total as claimed — a fault raised
while reading a member escapes its boundary (see the counterexample); what
holds is that for every heap free of throwing getters the formatter returns
text for every value, depth and visited set, never faulting.  The source's
internal catch guards only the final `String(val)` fall-through (replacing
its faults with the "[Unserializable]" marker), and that fall-through is
unreachable for every dispatched value category. -/
theorem claim_C6_amended :
    ∀ hp : Heap, gettersFree hp = true →
      ∀ (v : Value) (d : Nat) (seen : Seen), isOkE (formatValue hp v d seen) = true := by
  intro hp hg v d seen
  obtain ⟨p, hsome⟩ := formatValueB_total hp hg (3 - d) v seen
  simp [formatValue, hsome, isOkE]

/-- Claim C6 witness: on a concrete getter-free heap the formatter returns
normally. -/
theorem claim_C6_witness :
    gettersFree wHeap6 = true ∧ isOkE (formatValue wHeap6 (.ref 0) 0 []) = true :=
  ⟨by decide, claim_C6_amended wHeap6 (by decide) (.ref 0) 0 []⟩

/-- Claim C6 counterexample: formatting an object whose property getter
throws the string "x" raises that fault past format's boundary instead of
returning text with an "unserializable" marker. -/
theorem claim_C6_counterexample :
    formatValue poisonHeap (.ref 0) 0 [] = .error (.vStr "x") := by
  decide

/-- Claim C1 (amended): whenever the submission handler completes normally
it emits exactly one terminal event, and that event carries the submission's
id (first conjunct).  A first-attempt fault is discarded silently and the
block attempt decides the outcome.  On success of either attempt, a Result
with the formatted candidate is emitted provided formatting does not fault
(second conjunct); if formatting the candidate faults, the same catch that
reports evaluation faults reports the formatting fault as the submission's
single Fault event (third conjunct), and a block-attempt fault whose
rendering succeeds is likewise reported as the single Fault (fourth
conjunct).  If rendering the fault itself faults, the exception escapes the
handler and no terminal event at all is emitted (fifth conjunct). -/
theorem claim_C1_amended :
    (∀ (hp : Heap) (id : String) (eo bo : Outcome) (evs : List WorkerMsg),
      evalCode hp id eo bo = .ok evs →
      ∃ ev, evs = [ev] ∧ msgSubmissionId ev = some id)
    ∧ (∀ (hp : Heap) (id : String) (v : Value) (bo : Outcome) (s : String) (sn : Seen),
        formatValue hp v 0 [] = .ok (s, sn) →
        evalCode hp id (.ok v) bo = .ok [.resultM id s])
    ∧ (∀ (hp : Heap) (id : String) (v e1 : Value) (bo : Outcome) (s1 : String) (sn : Seen),
        formatValue hp v 0 [] = .error e1 → formatValue hp e1 0 [] = .ok (s1, sn) →
        evalCode hp id (.ok v) bo = .ok [.errorM (some id) s1])
    ∧ (∀ (hp : Heap) (id : String) (d e : Value) (s : String) (sn : Seen),
        formatValue hp e 0 [] = .ok (s, sn) →
        evalCode hp id (.fault d) (.fault e) = .ok [.errorM (some id) s])
    ∧ (∀ (hp : Heap) (id : String) (v e1 e2 : Value) (bo : Outcome),
        formatValue hp v 0 [] = .error e1 → formatValue hp e1 0 [] = .error e2 →
        evalCode hp id (.ok v) bo = .error e2) := by
  refine ⟨?_, ?_, ?_, ?_, ?_⟩
  · intro hp id eo bo evs h
    simp only [evalCode] at h
    cases hA : evalAttempts eo bo with
    | ok v =>
        simp only [hA] at h
        cases h1 : formatValue hp v 0 [] with
        | ok p =>
            obtain ⟨s, sn⟩ := p
            simp only [h1, Except.ok.injEq] at h
            exact ⟨.resultM id s, h.symm, rfl⟩
        | error e1 =>
            simp only [h1] at h
            cases h2 : formatValue hp e1 0 [] with
            | ok p1 =>
                obtain ⟨s1, sn⟩ := p1
                simp only [h2, Except.ok.injEq] at h
                exact ⟨.errorM (some id) s1, h.symm, rfl⟩
            | error e2 => simp only [h2] at h; cases h
    | fault e =>
        simp only [hA] at h
        cases h1 : formatValue hp e 0 [] with
        | ok p =>
            obtain ⟨s, sn⟩ := p
            simp only [h1, Except.ok.injEq] at h
            exact ⟨.errorM (some id) s, h.symm, rfl⟩
        | error e2 => simp only [h1] at h; cases h
  · intro hp id v bo s sn h1
    simp only [evalCode, evalAttempts, h1]
  · intro hp id v e1 bo s1 sn h1 h2
    simp only [evalCode, evalAttempts, h1, h2]
  · intro hp id d e s sn h1
    simp only [evalCode, evalAttempts, h1]
  · intro hp id v e1 e2 bo h1 h2
    simp only [evalCode, evalAttempts, h1, h2]

/-- Claim C1 witness: a successful evaluation of the number 7 emits exactly
the one Result event carrying the submission's id. -/
theorem claim_C1_witness :
    formatValue [] (.vNum 7) 0 [] = .ok ("7", [])
    ∧ evalCode [] "w1" (.ok (.vNum 7)) (.fault .vNull) = .ok [.resultM "w1" "7"] :=
  ⟨rfl, claim_C1_amended.2.1 [] "w1" (.vNum 7) (.fault .vNull) "7" [] rfl⟩

/-- Claim C1 counterexample: the evaluation succeeds (the expression attempt
returns an object) yet the emitted terminal event is a Fault, because
formatting the candidate value faults — contradicting "on success of either
attempt exactly one Result event … is emitted" (first conjunct); and when
the thrown value cannot be formatted either, the exception escapes the
handler and no terminal event is emitted at all — contradicting "never zero"
(second conjunct). -/
theorem claim_C1_counterexample :
    evalCode poisonHeap "i1" (.ok (.ref 0)) (.fault .vNull) =
      .ok [.errorM (some "i1") "\"x\""]
    ∧ evalCode poisonSelf "i2" (.ok (.ref 0)) (.fault .vNull) = .error (.ref 0) := by
  refine ⟨by decide, by decide⟩

end JsTerminal
